import Mathlib

/-!
Shallow embedding of the crimson actor system (src/crimson/system.rs):
an actor host and message routing engine.  Addresses are strings; a
registry maps each address to the list of endpoints (mailbox senders)
mounted under it; a round-robin allocator picks which endpoint of a
pool receives each Send; Publish fans a copy of the payload out to
every endpoint of the pool; a polling multiplexer (select) merges the
control channels of all actors into a single stream consumed by the
run loop.
-/

namespace Crimson

/-- Addresses are opaque strings. -/
abbrev Address := String

/-- Model of one mailbox sender (SyncSender) held by the router for a
mounted actor.  Only its connectivity matters for routing semantics:
sending on it succeeds exactly when the receiving actor still holds
the receiver. -/
structure Endpoint where
  connected : Bool
deriving DecidableEq, Repr

/-- Sending a value into an endpoint, mirroring SyncSender::send which
returns Ok on success and Err when the receiver was dropped. -/
def Endpoint.sendOk (e : Endpoint) : Bool :=
  e.connected

/-- The address registry of the system: the HashMap from address to
the vector of endpoint senders mounted under that address, modelled as
an association list with unique keys (mount never inserts a duplicate
key). -/
abbrev Registry := List (Address × List Endpoint)

/-- Lookup in the registry, mirroring HashMap::get. -/
def Registry.find (r : Registry) (a : Address) : Option (List Endpoint) :=
  List.lookup a r

/-- ActorEvent from system.rs: the envelope an actor emits on its
control channel. -/
inductive ActorEvent (T : Type) where
  | Started (address : Address)
  | Send (frm dst : Address) (value : T)
  | Publish (frm dst : Address) (value : T)
  | Stopped (address : Address)
deriving DecidableEq, Repr

/-- SystemEvent from system.rs: the externally observable event passed
to the observer callback of run. -/
inductive SystemEvent where
  | Started (address : Address)
  | Forward (frm dst : Address) (idx : Nat)
  | Error (address reason : String)
  | Stopped (address : Address)
deriving DecidableEq, Repr

/-- RoundRobin from system.rs: a map from address to the pair
(total endpoint count, current index). -/
structure RoundRobin where
  counters : List (Address × (Nat × Nat))
deriving DecidableEq, Repr

/-- Removal of a key from the counters map, mirroring HashMap::remove
(under unique keys, filtering every matching entry removes exactly the
one entry). -/
def RoundRobin.removeKey (l : List (Address × (Nat × Nat))) (a : Address) :
    List (Address × (Nat × Nat)) :=
  l.filter (fun kv => kv.1 ≠ a)

/-- RoundRobin::new: for every key of the registry record the pair
(vec.len(), vec.len() - 1).  The source subtraction is on usize; a
mounted address always has at least one endpoint, so the subtraction
never underflows and Nat subtraction is faithful there. -/
def RoundRobin.new (senders : Registry) : RoundRobin :=
  { counters := senders.map (fun kv => (kv.1, (kv.2.length, kv.2.length - 1))) }

/-- RoundRobin::next: remove the entry for the address; if present,
increment the current index, wrap to 0 when it reaches the total,
re-insert and return it; if absent, return 0 and leave the state
unchanged. -/
def RoundRobin.next (rr : RoundRobin) (address : Address) : Nat × RoundRobin :=
  match (rr.counters.lookup address : Option (Nat × Nat)) with
  | some (total, current) =>
      let current := current + 1
      let current := if total ≤ current then 0 else current
      (current, ⟨(address, (total, current)) :: RoundRobin.removeKey rr.counters address⟩)
  | none => (0, rr)

/-- Fan-out loop of the Publish arm of System::run: iterate over the
endpoint vector in order, send a clone of the value to each endpoint,
and emit one Error per failed send while continuing with the rest.
Returns the emitted events and the list of (endpoint index, payload)
deliveries; start is the index of the first endpoint of vec within the
full vector. -/
def publishLoop (dst : Address) (value : T) : List Endpoint → Nat → List SystemEvent × List (Nat × T)
  | [], _ => ([], [])
  | e :: rest, start =>
      let tail := publishLoop dst value rest (start + 1)
      if e.sendOk then (tail.1, (start, value) :: tail.2)
      else (SystemEvent.Error dst "send error" :: tail.1, tail.2)

/-- One iteration of the match inside System::run, dispatching a
single ActorEvent drawn from the multiplexed stream.  Returns none
exactly when the source would panic (the index produced by the
round-robin allocator falling outside the endpoint vector); otherwise
returns the observer events emitted (in order), the deliveries made as
(target address, endpoint index, payload) triples, and the updated
round-robin state.  The registry itself is never mutated by dispatch. -/
def dispatch (senders : Registry) (rr : RoundRobin) :
    ActorEvent T → Option (List SystemEvent × List (Address × Nat × T) × RoundRobin)
  | .Started address => some ([.Started address], [], rr)
  | .Stopped address => some ([.Stopped address], [], rr)
  | .Send frm dst value =>
      let fwd := SystemEvent.Forward frm dst 0
      match senders.find dst with
      | none => some ([fwd, .Error dst "does not exist"], [], rr)
      | some vec =>
          let p := rr.next dst
          match vec[p.1]? with
          | none => none
          | some sender =>
              if sender.sendOk then some ([fwd], [(dst, p.1, value)], p.2)
              else some ([fwd, .Error dst "send error"], [], p.2)
  | .Publish frm dst value =>
      let fwd := SystemEvent.Forward frm dst 0
      match senders.find dst with
      | none => some ([fwd, .Error dst "does not exist"], [], rr)
      | some vec =>
          let res := publishLoop dst value vec 0
          some (fwd :: res.1, res.2.map (fun p => (dst, p.1, p.2)), rr)

/-- The event loop of System::run, folded over the finite stream of
envelopes produced by the multiplexer: dispatch each event in turn,
threading the round-robin state, and concatenate the emitted events
and deliveries.  Returns none when some dispatch panics. -/
def runLoop (senders : Registry) (rr : RoundRobin) :
    List (ActorEvent T) → Option (List SystemEvent × List (Address × Nat × T))
  | [] => some ([], [])
  | e :: rest =>
      match dispatch senders rr e with
      | none => none
      | some (evs, dels, rr2) =>
          match runLoop senders rr2 rest with
          | none => none
          | some (evs2, dels2) => some (evs ++ evs2, dels ++ dels2)

/-- Model of one mpsc Receiver as seen by the polling loop of select:
the queue of values not yet consumed, and whether the sending side has
been dropped (for a control channel this happens exactly when the
actor thread has finished). -/
structure Rx (T : Type) where
  pending : List T
  closed : Bool
deriving DecidableEq, Repr

/-- Outcome of Receiver::try_recv on the model: a value plus the
advanced receiver, Empty, or Disconnected (sender dropped and queue
drained). -/
inductive PollResult (T : Type) where
  | ok (value : T) (rest : Rx T)
  | empty
  | disconnected
deriving DecidableEq, Repr

/-- Receiver::try_recv on the model. -/
def Rx.tryRecv : Rx T → PollResult T
  | ⟨v :: rest, closed⟩ => .ok v ⟨rest, closed⟩
  | ⟨[], closed⟩ => if closed then .disconnected else .empty

/-- One pass of the coordinating loop of select over the live input
set: poll each input once; on a value, forward it downstream and keep
the input when the forward succeeds, drop it when the downstream
receiver is gone; on Empty keep the input; on Disconnected drop it.
downstreamLive records whether the output receiver is still held (run
holds it for the whole loop).  Returns the surviving inputs and the
values forwarded during the pass, in polling order. -/
def selectPass (downstreamLive : Bool) (receivers : List (Rx T)) :
    List (Rx T) × List T :=
  match receivers with
  | [] => ([], [])
  | rx :: rest =>
      let tail := selectPass downstreamLive rest
      match rx.tryRecv with
      | .ok value rx2 =>
          if downstreamLive then (rx2 :: tail.1, value :: tail.2) else tail
      | .empty => (rx :: tail.1, tail.2)
      | .disconnected => tail

/-- The coordinating loop of select, run to completion on a fuel
budget: repeat passes until the live set is empty, then close the
output and return the concatenation of all forwarded values.  Returns
none when the fuel runs out with the live set still non-empty, that
is, when the loop is still running after that many passes. -/
def selectLoop (downstreamLive : Bool) : Nat → List (Rx T) → Option (List T)
  | 0, _ => none
  | fuel + 1, receivers =>
      let res := selectPass downstreamLive receivers
      if res.1.isEmpty then some res.2
      else
        match selectLoop downstreamLive fuel res.1 with
        | none => none
        | some out2 => some (res.2 ++ out2)

/-- Sender from system.rs: the send capability handed to an actor,
holding the address the actor was mounted under; its send and publish
methods stamp that address as the from field of every envelope. -/
structure Sender (T : Type) where
  address : Address
deriving DecidableEq, Repr

/-- Sender::new. -/
def Sender.new (address : Address) : Sender T :=
  ⟨address⟩

/-- Sender::send builds a Send envelope with from set to the bound
address. -/
def Sender.send (s : Sender T) (dst : Address) (value : T) : ActorEvent T :=
  .Send s.address dst value

/-- Sender::publish builds a Publish envelope with from set to the
bound address. -/
def Sender.publish (s : Sender T) (dst : Address) (value : T) : ActorEvent T :=
  .Publish s.address dst value

/-- One message emission performed by user actor logic through its
Sender capability: either a point-to-point send or a publish, each
naming only the target address and the payload (the from field is
supplied by the capability). -/
inductive ActorMessage (T : Type) where
  | sendTo (dst : Address) (value : T)
  | publishTo (dst : Address) (value : T)
deriving DecidableEq, Repr

/-- Emission of one ActorMessage through a Sender capability. -/
def ActorMessage.emit (s : Sender T) : ActorMessage T → ActorEvent T
  | .sendTo dst value => s.send dst value
  | .publishTo dst value => s.publish dst value

/-- The sequence of envelopes the thread spawned by spawn_actor emits
on its control channel: Started first, then whatever the actor logic
emits through the Sender bound to its own address, then Stopped when
the logic returns.  The logic is abstracted as the finite list of
messages it emits. -/
def spawnActorTrace (address : Address) (logic : List (ActorMessage T)) :
    List (ActorEvent T) :=
  ActorEvent.Started address ::
    (logic.map (ActorMessage.emit (Sender.new address)) ++ [ActorEvent.Stopped address])

/-- System from system.rs: the control receivers pushed by mount and
the address registry. -/
structure System (T : Type) where
  receivers : List (Rx (ActorEvent T))
  senders : Registry

/-- System::new. -/
def System.new : System T :=
  { receivers := [], senders := [] }

/-- System::mount: push the control receiver returned by spawn_actor,
insert an empty endpoint vector for the address when the key is new,
and append the payload sender to the vector of that address.  The
endpoint and control receiver produced by the spawned actor are
parameters of the model. -/
def System.mount (s : System T) (address : Address) (ep : Endpoint)
    (rx : Rx (ActorEvent T)) : System T :=
  let senders :=
    if (s.senders.find address).isSome then s.senders
    else (address, ([] : List Endpoint)) :: s.senders
  { receivers := s.receivers ++ [rx]
  , senders := senders.map (fun kv => if kv.1 = address then (kv.1, kv.2 ++ [ep]) else kv) }

/-- Folding System.mount over a list of mounts, starting from
System.new. -/
def mountAll (mounts : List (Address × Endpoint × Rx (ActorEvent T))) : System T :=
  mounts.foldl (fun s m => s.mount m.1 m.2.1 m.2.2) System.new

/-- Successive indices handed out by repeated calls of
RoundRobin::next for one address, threading the allocator state. -/
def nextSeq (rr : RoundRobin) (a : Address) : Nat → List Nat
  | 0 => []
  | k + 1 =>
      let p := rr.next a
      p.1 :: nextSeq p.2 a k

/-- Invariant of the registry: every registered address maps to a
non-empty endpoint vector (mount always pushes the new endpoint right
after inserting an empty vector). -/
def RegistryNonempty (r : Registry) : Prop :=
  ∀ kv ∈ r, kv.2 ≠ ([] : List Endpoint)

/-- Correspondence between the registry and the round-robin state:
every registered address has a counter entry whose total is the
endpoint count and whose current index is in bounds. -/
def RRMatches (senders : Registry) (rr : RoundRobin) : Prop :=
  ∀ a vec, senders.find a = some vec →
    ∃ c, rr.counters.lookup a = some (vec.length, c) ∧ c < vec.length

/-! Helper lemmas about association-list lookup, used to reason about
the two HashMaps of the source (the registry and the round-robin
counters). -/

theorem lookup_cons_self {β : Type} (a : Address) (b : β) (l : List (Address × β)) :
    List.lookup a ((a, b) :: l) = some b := by
  simp [List.lookup]

theorem lookup_cons_ne {β : Type} (a k : Address) (b : β) (l : List (Address × β))
    (h : a ≠ k) : List.lookup a ((k, b) :: l) = List.lookup a l := by
  have hb : (a == k) = false := by simp [h]
  simp [List.lookup, hb]

theorem lookup_map_val {β γ : Type} (g : β → γ) (a : Address) :
    ∀ l : List (Address × β),
      List.lookup a (l.map (fun kv => (kv.1, g kv.2))) = (List.lookup a l).map g
  | [] => rfl
  | (k, b) :: rest => by
      by_cases h : a = k
      · subst h; simp [List.lookup]
      · simp only [List.map_cons, lookup_cons_ne a k _ _ h,
          lookup_cons_ne a k b rest h, lookup_map_val g a rest]

theorem lookup_removeKey_ne (a k : Address) (h : a ≠ k) :
    ∀ l : List (Address × (Nat × Nat)),
      List.lookup a (RoundRobin.removeKey l k) = List.lookup a l
  | [] => rfl
  | (k2, b) :: rest => by
      have ih := lookup_removeKey_ne a k h rest
      by_cases h2 : k2 = k
      · subst h2
        have e1 : RoundRobin.removeKey ((k2, b) :: rest) k2 =
            RoundRobin.removeKey rest k2 := by
          simp [RoundRobin.removeKey]
        rw [e1, ih, lookup_cons_ne a k2 b rest h]
      · have e1 : RoundRobin.removeKey ((k2, b) :: rest) k =
            (k2, b) :: RoundRobin.removeKey rest k := by
          simp [RoundRobin.removeKey, h2]
        rw [e1]
        by_cases h3 : a = k2
        · subst h3; rw [lookup_cons_self, lookup_cons_self]
        · rw [lookup_cons_ne a k2 b _ h3, lookup_cons_ne a k2 b rest h3, ih]

theorem lookup_mem {β : Type} (a : Address) (b : β) :
    ∀ l : List (Address × β), List.lookup a l = some b → (a, b) ∈ l
  | [], h => by simp [List.lookup] at h
  | (k, c) :: rest, h => by
      by_cases h2 : a = k
      · subst h2
        rw [lookup_cons_self] at h
        cases h
        exact List.mem_cons_self _ _
      · rw [lookup_cons_ne a k c rest h2] at h
        exact List.mem_cons_of_mem _ (lookup_mem a b rest h)

/-! Lemmas about the round-robin allocator. -/

/-- Wrapping increment of RoundRobin::next written as a modulus. -/
theorem next_if_eq_mod (total current : Nat) (hc : current < total) :
    (if total ≤ current + 1 then 0 else current + 1) = (current + 1) % total := by
  by_cases h : total ≤ current + 1
  · have he : current + 1 = total := by omega
    simp [h, he, Nat.mod_self]
  · have hlt : current + 1 < total := by omega
    simp [h, Nat.mod_eq_of_lt hlt]

/-- Known-address case of RoundRobin::next: the result is the wrapped
increment of the stored index and it is persisted. -/
theorem next_known (rr : RoundRobin) (a : Address) (total current : Nat)
    (hl : rr.counters.lookup a = some (total, current)) (hc : current < total) :
    (rr.next a).1 = (current + 1) % total ∧
    (rr.next a).2.counters.lookup a = some (total, (current + 1) % total) := by
  refine ⟨?_, ?_⟩
  · simp [RoundRobin.next, hl, next_if_eq_mod total current hc]
  · simp [RoundRobin.next, hl, next_if_eq_mod total current hc, lookup_cons_self]

/-- Unknown-address case of RoundRobin::next: result 0, state
untouched. -/
theorem next_unknown (rr : RoundRobin) (a : Address)
    (hl : rr.counters.lookup a = none) : rr.next a = (0, rr) := by
  simp [RoundRobin.next, hl]

/-- RoundRobin::next leaves the counters of every other address
unchanged. -/
theorem next_lookup_ne (rr : RoundRobin) (a b : Address) (h : b ≠ a) :
    (rr.next a).2.counters.lookup b = rr.counters.lookup b := by
  cases hl : (rr.counters.lookup a : Option (Nat × Nat)) with
  | none => simp [RoundRobin.next, hl]
  | some p =>
      obtain ⟨total, current⟩ := p
      simp only [RoundRobin.next, hl]
      rw [lookup_cons_ne b a _ _ h, lookup_removeKey_ne b a h]

/-- Successive indices from a known counter entry follow the wrapped
increment sequence. -/
theorem nextSeq_mod (k : Nat) :
    ∀ (rr : RoundRobin) (a : Address) (total current : Nat),
      rr.counters.lookup a = some (total, current) → current < total →
      nextSeq rr a k = (List.range k).map (fun i => (current + 1 + i) % total) := by
  induction k with
  | zero => intro rr a total current _ _; rfl
  | succ k ih =>
      intro rr a total current hl hc
      have hk := next_known rr a total current hl hc
      have hmodlt : (current + 1) % total < total :=
        Nat.mod_lt _ (by omega)
      have ihk := ih (rr.next a).2 a total ((current + 1) % total) hk.2 hmodlt
      simp only [nextSeq, hk.1, ihk, List.range_succ_eq_map, List.map_cons, List.map_map]
      congr 1
      apply List.map_congr_left
      intro i _
      simp only [Function.comp_apply]
      calc ((current + 1) % total + 1 + i) % total
          = ((current + 1) % total + (1 + i)) % total := by rw [Nat.add_assoc]
        _ = (current + 1 + (1 + i)) % total := Nat.mod_add_mod _ _ _
        _ = (current + 1 + Nat.succ i) % total := by
            congr 1
            omega

/-- Claim C2: the round-robin allocator is a pure state update
returning the wrapped increment for known addresses and 0 without a
state change for unknown ones, and starting from the state built by
RoundRobin::new, N consecutive dispatches to an address with N
endpoints yield exactly 0, 1, ..., N-1 in order. -/
theorem roundRobin_pure_cycle :
    (∀ (rr : RoundRobin) (a : Address) (total current : Nat),
      rr.counters.lookup a = some (total, current) → current < total →
      (rr.next a).1 = (current + 1) % total ∧
      (rr.next a).2.counters.lookup a = some (total, (current + 1) % total)) ∧
    (∀ (rr : RoundRobin) (a : Address),
      rr.counters.lookup a = none → rr.next a = (0, rr)) ∧
    (∀ (senders : Registry) (a : Address) (vec : List Endpoint),
      senders.find a = some vec → vec ≠ [] →
      nextSeq (RoundRobin.new senders) a vec.length = List.range vec.length) := by
  refine ⟨next_known, next_unknown, ?_⟩
  intro senders a vec hfind hne
  have hlen : 0 < vec.length := List.length_pos.mpr hne
  have hnew : (RoundRobin.new senders).counters.lookup a =
      some (vec.length, vec.length - 1) := by
    unfold RoundRobin.new
    rw [lookup_map_val (fun v => (v.length, v.length - 1)) a senders]
    unfold Registry.find at hfind
    rw [hfind]
    rfl
  have hseq := nextSeq_mod vec.length (RoundRobin.new senders) a vec.length
    (vec.length - 1) hnew (by omega)
  rw [hseq]
  have hcong : ∀ i ∈ List.range vec.length,
      (vec.length - 1 + 1 + i) % vec.length = i := by
    intro i hi
    have hi2 : i < vec.length := List.mem_range.mp hi
    have he : vec.length - 1 + 1 + i = i + vec.length := by omega
    rw [he, Nat.add_mod_right]
    exact Nat.mod_eq_of_lt hi2
  have hmap := List.map_congr_left hcong
  simpa using hmap

/-- Concrete instantiation of roundRobin_pure_cycle: a known counter
at (3, 1) steps to 2, an unknown address leaves the state unchanged,
and two endpoints are cycled as 0, 1. -/
theorem roundRobin_pure_cycle_witness :
    (((⟨[("a", (3, 1))]⟩ : RoundRobin).next "a").1 = (1 + 1) % 3 ∧
      ((⟨[("a", (3, 1))]⟩ : RoundRobin).next "a").2.counters.lookup "a" =
        some (3, (1 + 1) % 3)) ∧
    (⟨[("b", (2, 0))]⟩ : RoundRobin).next "z" = (0, ⟨[("b", (2, 0))]⟩) ∧
    nextSeq (RoundRobin.new [("a", [⟨true⟩, ⟨true⟩])]) "a" 2 = List.range 2 := by
  refine ⟨roundRobin_pure_cycle.1 ⟨[("a", (3, 1))]⟩ "a" 3 1 rfl (by omega),
          roundRobin_pure_cycle.2.1 ⟨[("b", (2, 0))]⟩ "z" rfl,
          roundRobin_pure_cycle.2.2 [("a", [⟨true⟩, ⟨true⟩])] "a" [⟨true⟩, ⟨true⟩] rfl
            (by simp)⟩

/-- Claim C1 as stated is false on the source: with two connected
endpoints mounted under address a and the allocator at (2, 0), the
round-robin allocator selects index 1 and the payload is delivered to
endpoint 1, yet the emitted Forward event carries index 0 (System::run
hard-codes 0 before the lookup); no Forward event carrying the
selected index is emitted. -/
theorem sendForwardIndex_counterexample :
    dispatch [("a", [⟨true⟩, ⟨true⟩])] ⟨[("a", (2, 0))]⟩ (ActorEvent.Send "x" "a" (2 : Nat)) =
      some ([SystemEvent.Forward "x" "a" 0], [("a", 1, 2)], ⟨[("a", (2, 1))]⟩) ∧
    ((⟨[("a", (2, 0))]⟩ : RoundRobin).next "a").1 = 1 ∧
    SystemEvent.Forward "x" "a" 1 ∉ [SystemEvent.Forward "x" "a" 0] := by
  refine ⟨rfl, rfl, ?_⟩
  simp

/-- Claim C1 amended: for every Send dispatched to a registered
address (with the allocator index in bounds), the emitted Forward
event always carries index 0, while the payload is forwarded to the
endpoint at the index selected by the round-robin allocator. -/
theorem sendForwardIndex (senders : Registry) (rr : RoundRobin) (frm dst : Address)
    (value : T) (vec : List Endpoint) (hfind : senders.find dst = some vec)
    (hidx : (rr.next dst).1 < vec.length) :
    ∃ sender, vec[(rr.next dst).1]? = some sender ∧
      dispatch senders rr (ActorEvent.Send frm dst value) =
        some (SystemEvent.Forward frm dst 0 ::
                (if sender.sendOk then [] else [SystemEvent.Error dst "send error"]),
              (if sender.sendOk then [(dst, (rr.next dst).1, value)] else []),
              (rr.next dst).2) := by
  obtain ⟨sender, hs⟩ : ∃ s, vec[(rr.next dst).1]? = some s := by
    rw [List.getElem?_eq_getElem hidx]
    exact ⟨_, rfl⟩
  refine ⟨sender, hs, ?_⟩
  rcases hnext : rr.next dst with ⟨idx, rr2⟩
  rw [hnext] at hs
  simp only [dispatch, hfind, hnext, hs]
  cases h : sender.sendOk <;> simp [h]

/-- Concrete instantiation of sendForwardIndex: one connected
endpoint under address a, first dispatch selects index 0. -/
theorem sendForwardIndex_witness :
    ∃ sender, ([⟨true⟩] : List Endpoint)[((RoundRobin.new [("a", [⟨true⟩])]).next "a").1]? = some sender ∧
      dispatch [("a", [⟨true⟩])] (RoundRobin.new [("a", [⟨true⟩])])
          (ActorEvent.Send "x" "a" (5 : Nat)) =
        some (SystemEvent.Forward "x" "a" 0 ::
                (if sender.sendOk then [] else [SystemEvent.Error "a" "send error"]),
              (if sender.sendOk then [("a", ((RoundRobin.new [("a", [⟨true⟩])]).next "a").1, 5)] else []),
              ((RoundRobin.new [("a", [⟨true⟩])]).next "a").2) :=
  sendForwardIndex [("a", [⟨true⟩])] (RoundRobin.new [("a", [⟨true⟩])]) "x" "a" 5
    [⟨true⟩] rfl (by decide)

/-! Lemmas about the Publish fan-out loop. -/

/-- Events of the fan-out loop: one Error per failed endpoint, in
registration order. -/
theorem publishLoop_events (dst : Address) (value : T) :
    ∀ (vec : List Endpoint) (start : Nat),
      (publishLoop dst value vec start).1 =
        List.replicate (vec.countP (fun e => !e.sendOk)) (SystemEvent.Error dst "send error")
  | [], _ => rfl
  | e :: rest, start => by
      have ih := publishLoop_events dst value rest (start + 1)
      cases h : e.sendOk <;>
        simp [publishLoop, h, ih, List.countP_cons, List.replicate_succ]

/-- Deliveries of the fan-out loop: exactly the connected endpoints, in
registration order, each paired with the payload. -/
theorem publishLoop_dels (dst : Address) (value : T) :
    ∀ (vec : List Endpoint) (start : Nat),
      (publishLoop dst value vec start).2 =
        (List.enumFrom start vec).filterMap
          (fun p => if p.2.sendOk then some (p.1, value) else none)
  | [], _ => rfl
  | e :: rest, start => by
      have ih := publishLoop_dels dst value rest (start + 1)
      cases h : e.sendOk <;>
        simp [publishLoop, h, ih, List.enumFrom_cons, List.filterMap_cons]

/-- Every delivery index produced by the fan-out loop lies in the index
range of the endpoint vector. -/
theorem publishLoop_bounds (dst : Address) (value : T) :
    ∀ (vec : List Endpoint) (start : Nat),
      ∀ p ∈ (publishLoop dst value vec start).2,
        start ≤ p.1 ∧ p.1 < start + vec.length
  | [], _, p, hp => by simp [publishLoop] at hp
  | e :: rest, start, p, hp => by
      have ih := publishLoop_bounds dst value rest (start + 1)
      by_cases h : e.sendOk = true
      · rw [show (publishLoop dst value (e :: rest) start).2 =
            (start, value) :: (publishLoop dst value rest (start + 1)).2 from by
              simp [publishLoop, h]] at hp
        rcases List.mem_cons.mp hp with h2 | h2
        · subst h2; simp
        · have := ih p h2
          simp only [List.length_cons]
          omega
      · rw [show (publishLoop dst value (e :: rest) start).2 =
            (publishLoop dst value rest (start + 1)).2 from by
              simp [publishLoop, h]] at hp
        have := ih p hp
        simp only [List.length_cons]
        omega

/-- Each endpoint index appears in the deliveries of the fan-out loop
exactly once when its endpoint is connected and not at all when it is
disconnected. -/
theorem publishLoop_count [DecidableEq T] (dst : Address) (value : T) :
    ∀ (vec : List Endpoint) (start i : Nat) (hi : i < vec.length),
      ((publishLoop dst value vec start).2).count (start + i, value) =
        if (vec.get ⟨i, hi⟩).sendOk then 1 else 0
  | [], _, i, hi => by simp at hi
  | e :: rest, start, i, hi => by
      have hz : ((publishLoop dst value rest (start + 1)).2).count (start, value) = 0 := by
        refine List.count_eq_zero.mpr ?_
        intro hmem
        have := publishLoop_bounds dst value rest (start + 1) (start, value) hmem
        omega
      match i with
      | 0 =>
          cases h : e.sendOk <;>
            simp [publishLoop, h, List.count_cons, hz, Nat.add_zero]
      | j + 1 =>
          have hj : j < rest.length := by
            simp only [List.length_cons] at hi
            omega
          have ih := publishLoop_count dst value rest (start + 1) j hj
          have harith : start + 1 + j = start + (j + 1) := by omega
          rw [harith] at ih
          have hne : (((start, value) : Nat × T) == (start + (j + 1), value)) = false := by
            simp only [beq_eq_false_iff_ne, ne_eq, Prod.mk.injEq, not_and]
            intro hc
            omega
          by_cases h : e.sendOk = true
          · rw [show (publishLoop dst value (e :: rest) start).2 =
                (start, value) :: (publishLoop dst value rest (start + 1)).2 from by
                  simp [publishLoop, h]]
            have hc : List.count (start + (j + 1), value)
                ((start, value) :: (publishLoop dst value rest (start + 1)).2) =
                List.count (start + (j + 1), value)
                  (publishLoop dst value rest (start + 1)).2 := by
              rw [List.count_cons, hne]
              simp
            rw [hc]
            simpa using ih
          · rw [show (publishLoop dst value (e :: rest) start).2 =
                (publishLoop dst value rest (start + 1)).2 from by
                  simp [publishLoop, h]]
            simpa using ih

/-- Claim C3: a Publish to a registered address attempts delivery to
every endpoint of the pool in registration order, emits exactly one
Error per failed endpoint while continuing with the remaining ones (so
at most N Error events), delivers exactly one copy to every connected
endpoint and none to disconnected ones, and leaves the round-robin
state untouched. -/
theorem publishFanOut [DecidableEq T] (senders : Registry) (rr : RoundRobin)
    (frm dst : Address) (value : T) (vec : List Endpoint)
    (hfind : senders.find dst = some vec) :
    dispatch senders rr (ActorEvent.Publish frm dst value) =
      some (SystemEvent.Forward frm dst 0 ::
              List.replicate (vec.countP (fun e => !e.sendOk))
                (SystemEvent.Error dst "send error"),
            ((List.enumFrom 0 vec).filterMap
              (fun p => if p.2.sendOk then some (p.1, value) else none)).map
                (fun p => (dst, p.1, p.2)),
            rr) ∧
    vec.countP (fun e => !e.sendOk) ≤ vec.length ∧
    (∀ i (hi : i < vec.length),
      ((publishLoop dst value vec 0).2).count (i, value) =
        if (vec.get ⟨i, hi⟩).sendOk then 1 else 0) := by
  refine ⟨?_, List.countP_le_length _, ?_⟩
  · simp only [dispatch, hfind]
    rw [publishLoop_events, publishLoop_dels]
  · intro i hi
    have hcount := publishLoop_count dst value vec 0 i hi
    have hzero : (0 : Nat) + i = i := by omega
    rw [hzero] at hcount
    exact hcount

/-- Concrete instantiation of publishFanOut: three endpoints under
address h, the middle one disconnected; the connected endpoint 1 is
examined via index 1 being a failed endpoint (count 0 comes from the
if with sendOk false). -/
theorem publishFanOut_witness :
    dispatch [("h", [⟨true⟩, ⟨false⟩, ⟨true⟩])]
        (RoundRobin.new [("h", [⟨true⟩, ⟨false⟩, ⟨true⟩])])
        (ActorEvent.Publish "g" "h" (7 : Nat)) =
      some (SystemEvent.Forward "g" "h" 0 ::
              List.replicate
                (([⟨true⟩, ⟨false⟩, ⟨true⟩] : List Endpoint).countP (fun e => !e.sendOk))
                (SystemEvent.Error "h" "send error"),
            ((List.enumFrom 0 ([⟨true⟩, ⟨false⟩, ⟨true⟩] : List Endpoint)).filterMap
              (fun p => if p.2.sendOk then some (p.1, (7 : Nat)) else none)).map
                (fun p => ("h", p.1, p.2)),
            RoundRobin.new [("h", [⟨true⟩, ⟨false⟩, ⟨true⟩])]) ∧
    ((publishLoop "h" (7 : Nat) [⟨true⟩, ⟨false⟩, ⟨true⟩] 0).2).count (1, 7) =
      if (([⟨true⟩, ⟨false⟩, ⟨true⟩] : List Endpoint).get ⟨1, by decide⟩).sendOk
      then 1 else 0 := by
  have h := publishFanOut [("h", [⟨true⟩, ⟨false⟩, ⟨true⟩])]
    (RoundRobin.new [("h", [⟨true⟩, ⟨false⟩, ⟨true⟩])]) "g" "h" (7 : Nat)
    [⟨true⟩, ⟨false⟩, ⟨true⟩] rfl
  exact ⟨h.1, h.2.2 1 (by decide)⟩

/-- Claim C4: dispatching a Send or Publish whose target address is
absent from the registry emits Error(address, "does not exist"), drops
the message (no delivery), does not panic, and the run loop continues
with the subsequent events under an unchanged registry and allocator
state. -/
theorem unknownAddress (senders : Registry) (rr : RoundRobin) (frm dst : Address)
    (value : T) (rest : List (ActorEvent T)) (hfind : senders.find dst = none) :
    dispatch senders rr (ActorEvent.Send frm dst value) =
      some ([SystemEvent.Forward frm dst 0, SystemEvent.Error dst "does not exist"],
        [], rr) ∧
    dispatch senders rr (ActorEvent.Publish frm dst value) =
      some ([SystemEvent.Forward frm dst 0, SystemEvent.Error dst "does not exist"],
        [], rr) ∧
    runLoop senders rr (ActorEvent.Send frm dst value :: rest) =
      (runLoop senders rr rest).map
        (fun p => ([SystemEvent.Forward frm dst 0,
            SystemEvent.Error dst "does not exist"] ++ p.1, p.2)) ∧
    runLoop senders rr (ActorEvent.Publish frm dst value :: rest) =
      (runLoop senders rr rest).map
        (fun p => ([SystemEvent.Forward frm dst 0,
            SystemEvent.Error dst "does not exist"] ++ p.1, p.2)) := by
  have hs : dispatch senders rr (ActorEvent.Send frm dst value) =
      some ([SystemEvent.Forward frm dst 0, SystemEvent.Error dst "does not exist"],
        [], rr) := by
    simp [dispatch, hfind]
  have hp : dispatch senders rr (ActorEvent.Publish frm dst value) =
      some ([SystemEvent.Forward frm dst 0, SystemEvent.Error dst "does not exist"],
        [], rr) := by
    simp [dispatch, hfind]
  refine ⟨hs, hp, ?_, ?_⟩
  · rw [runLoop, hs]
    rcases h2 : runLoop senders rr rest with _ | ⟨evs2, dels2⟩ <;> simp [h2]
  · rw [runLoop, hp]
    rcases h2 : runLoop senders rr rest with _ | ⟨evs2, dels2⟩ <;> simp [h2]

/-- Concrete instantiation of unknownAddress: one actor mounted under
address e, a Send and a Publish to the unmounted address f. -/
theorem unknownAddress_witness :
    dispatch [("e", [⟨true⟩])] (RoundRobin.new [("e", [⟨true⟩])])
        (ActorEvent.Send "e" "f" (1 : Nat)) =
      some ([SystemEvent.Forward "e" "f" 0, SystemEvent.Error "f" "does not exist"],
        [], RoundRobin.new [("e", [⟨true⟩])]) ∧
    dispatch [("e", [⟨true⟩])] (RoundRobin.new [("e", [⟨true⟩])])
        (ActorEvent.Publish "e" "f" (1 : Nat)) =
      some ([SystemEvent.Forward "e" "f" 0, SystemEvent.Error "f" "does not exist"],
        [], RoundRobin.new [("e", [⟨true⟩])]) ∧
    runLoop [("e", [⟨true⟩])] (RoundRobin.new [("e", [⟨true⟩])])
        [ActorEvent.Send "e" "f" (1 : Nat), ActorEvent.Stopped "e"] =
      (runLoop [("e", [⟨true⟩])] (RoundRobin.new [("e", [⟨true⟩])])
          [ActorEvent.Stopped "e"]).map
        (fun p => ([SystemEvent.Forward "e" "f" 0,
            SystemEvent.Error "f" "does not exist"] ++ p.1, p.2)) := by
  have h := unknownAddress [("e", [⟨true⟩])] (RoundRobin.new [("e", [⟨true⟩])])
    "e" "f" (1 : Nat) [ActorEvent.Stopped "e"] rfl
  exact ⟨h.1, h.2.1, h.2.2.1⟩

/-- Claim C5: a Send whose round-robin-selected endpoint is
disconnected emits exactly one Error(to, "send error"), drops the
message without retry, advances only the allocator state, and the run
loop continues dispatching the remaining events against the unchanged
registry. -/
theorem sendDisconnected (senders : Registry) (rr : RoundRobin) (frm dst : Address)
    (value : T) (vec : List Endpoint) (sender : Endpoint)
    (rest : List (ActorEvent T))
    (hfind : senders.find dst = some vec)
    (hget : vec[(rr.next dst).1]? = some sender)
    (hdis : sender.connected = false) :
    dispatch senders rr (ActorEvent.Send frm dst value) =
      some ([SystemEvent.Forward frm dst 0, SystemEvent.Error dst "send error"],
        [], (rr.next dst).2) ∧
    List.count (SystemEvent.Error dst "send error")
      [SystemEvent.Forward frm dst 0, SystemEvent.Error dst "send error"] = 1 ∧
    runLoop senders rr (ActorEvent.Send frm dst value :: rest) =
      (runLoop senders (rr.next dst).2 rest).map
        (fun p => ([SystemEvent.Forward frm dst 0,
            SystemEvent.Error dst "send error"] ++ p.1, p.2)) := by
  have hs : dispatch senders rr (ActorEvent.Send frm dst value) =
      some ([SystemEvent.Forward frm dst 0, SystemEvent.Error dst "send error"],
        [], (rr.next dst).2) := by
    simp [dispatch, hfind, hget, Endpoint.sendOk, hdis]
  refine ⟨hs, by simp [List.count_cons], ?_⟩
  rw [runLoop, hs]
  rcases h2 : runLoop senders (rr.next dst).2 rest with _ | ⟨evs2, dels2⟩ <;> simp [h2]

/-- Concrete instantiation of sendDisconnected: a single disconnected
endpoint under address b. -/
theorem sendDisconnected_witness :
    dispatch [("b", [⟨false⟩])] (RoundRobin.new [("b", [⟨false⟩])])
        (ActorEvent.Send "x" "b" (3 : Nat)) =
      some ([SystemEvent.Forward "x" "b" 0, SystemEvent.Error "b" "send error"],
        [], ((RoundRobin.new [("b", [⟨false⟩])]).next "b").2) ∧
    List.count (SystemEvent.Error "b" "send error")
      [SystemEvent.Forward "x" "b" 0, SystemEvent.Error "b" "send error"] = 1 ∧
    runLoop [("b", [⟨false⟩])] (RoundRobin.new [("b", [⟨false⟩])])
        [ActorEvent.Send "x" "b" (3 : Nat), ActorEvent.Started "b"] =
      (runLoop [("b", [⟨false⟩])] ((RoundRobin.new [("b", [⟨false⟩])]).next "b").2
          [ActorEvent.Started "b"]).map
        (fun p => ([SystemEvent.Forward "x" "b" 0,
            SystemEvent.Error "b" "send error"] ++ p.1, p.2)) :=
  sendDisconnected [("b", [⟨false⟩])] (RoundRobin.new [("b", [⟨false⟩])])
    "x" "b" (3 : Nat) [⟨false⟩] ⟨false⟩ [ActorEvent.Started "b"] rfl (by decide) rfl

/-- Claim C6: the control-channel trace of a mounted actor starts with
Started(address), ends with Stopped(address), and every event in
between is a Send or a Publish whose from field is the address the
actor was mounted under (the Sender capability is bound to the
mounting address). -/
theorem actorTraceShape (address : Address) (logic : List (ActorMessage T)) :
    (spawnActorTrace address logic).head? = some (ActorEvent.Started address) ∧
    (spawnActorTrace address logic).getLast? = some (ActorEvent.Stopped address) ∧
    ∀ e ∈ ((spawnActorTrace address logic).drop 1).dropLast,
      ∃ dst value, e = ActorEvent.Send address dst value ∨
        e = ActorEvent.Publish address dst value := by
  refine ⟨rfl, ?_, ?_⟩
  · rw [spawnActorTrace,
      show ActorEvent.Started address ::
          (logic.map (ActorMessage.emit (Sender.new address)) ++ [ActorEvent.Stopped address]) =
        (ActorEvent.Started address :: logic.map (ActorMessage.emit (Sender.new address))) ++
          [ActorEvent.Stopped address] from rfl,
      List.getLast?_concat]
  · intro e he
    rw [spawnActorTrace, List.drop_succ_cons, List.drop_zero, List.dropLast_concat] at he
    obtain ⟨m, _, rfl⟩ := List.mem_map.mp he
    cases m with
    | sendTo dst value => exact ⟨dst, value, Or.inl rfl⟩
    | publishTo dst value => exact ⟨dst, value, Or.inr rfl⟩

/-- The live set surviving one pass, written as a filterMap over the
poll outcome of each input. -/
theorem selectPass_eq_filterMap (downstreamLive : Bool) (receivers : List (Rx T)) :
    (selectPass downstreamLive receivers).1 =
      receivers.filterMap (fun rx =>
        match rx.tryRecv with
        | .ok _ rx2 => if downstreamLive then some rx2 else none
        | .empty => some rx
        | .disconnected => none) := by
  induction receivers with
  | nil => rfl
  | cons rx rest ih =>
      cases h : rx.tryRecv with
      | ok v rx2 =>
          cases downstreamLive <;>
            simp [selectPass, h, List.filterMap_cons, ih]
      | empty => simp [selectPass, h, List.filterMap_cons, ih]
      | disconnected => simp [selectPass, h, List.filterMap_cons, ih]

/-- The coordinating loop returns right after a pass exactly when the
pass left the live set empty. -/
theorem selectLoop_one (downstreamLive : Bool) (receivers : List (Rx T)) :
    (selectLoop downstreamLive 1 receivers).isSome ↔
      (selectPass downstreamLive receivers).1 = [] := by
  cases hk : (selectPass downstreamLive receivers).1 with
  | nil => simp [selectLoop, hk]
  | cons k ks => simp [selectLoop, hk]

/-- Claim C7: one pass of the coordinating loop of select keeps
exactly the inputs that either yielded a value that was forwarded
downstream or were currently empty, and permanently drops those found
disconnected (as well as any yielding input once the downstream
receiver is gone); the loop returns, closing the output, exactly when
the live set after the pass is empty. -/
theorem selectPass_keeps (downstreamLive : Bool) (receivers : List (Rx T)) :
    (selectPass downstreamLive receivers).1 =
      receivers.filterMap (fun rx =>
        match rx.tryRecv with
        | .ok _ rx2 => if downstreamLive then some rx2 else none
        | .empty => some rx
        | .disconnected => none) ∧
    ((selectLoop downstreamLive 1 receivers).isSome ↔
      (selectPass downstreamLive receivers).1 = []) :=
  ⟨selectPass_eq_filterMap downstreamLive receivers,
   selectLoop_one downstreamLive receivers⟩

/-- Concrete instantiation of actorTraceShape: an actor mounted at A
that sends one message; the middle event of its trace is the Send
stamped with A. -/
theorem actorTraceShape_witness :
    (spawnActorTrace "A" [ActorMessage.sendTo "B" (1 : Nat)]).head? =
      some (ActorEvent.Started "A") ∧
    (spawnActorTrace "A" [ActorMessage.sendTo "B" (1 : Nat)]).getLast? =
      some (ActorEvent.Stopped "A") ∧
    (∃ dst value, ActorEvent.Send "A" "B" (1 : Nat) = ActorEvent.Send "A" dst value ∨
      ActorEvent.Send "A" "B" (1 : Nat) = ActorEvent.Publish "A" dst value) := by
  have h := actorTraceShape "A" [ActorMessage.sendTo "B" (1 : Nat)]
  exact ⟨h.1, h.2.1, h.2.2 (ActorEvent.Send "A" "B" (1 : Nat)) (by decide)⟩

/-- Concrete instantiation of selectPass_keeps: three inputs, one with
a pending value, one closed and drained, one empty but open. -/
theorem selectPass_keeps_witness :
    (selectPass true [(⟨[1], true⟩ : Rx Nat), ⟨[], true⟩, ⟨[], false⟩]).1 =
      [(⟨[1], true⟩ : Rx Nat), ⟨[], true⟩, ⟨[], false⟩].filterMap (fun rx =>
        match rx.tryRecv with
        | .ok _ rx2 => if true then some rx2 else none
        | .empty => some rx
        | .disconnected => none) ∧
    ((selectLoop true 1 [(⟨[1], true⟩ : Rx Nat), ⟨[], true⟩, ⟨[], false⟩]).isSome ↔
      (selectPass true [(⟨[1], true⟩ : Rx Nat), ⟨[], true⟩, ⟨[], false⟩]).1 = []) :=
  selectPass_keeps true [⟨[1], true⟩, ⟨[], true⟩, ⟨[], false⟩]

/-! Lemmas about the registry update performed by System::mount. -/

theorem lookup_map_update {β : Type} (a : Address) (f : β → β) :
    ∀ l : List (Address × β),
      List.lookup a (l.map (fun kv => if kv.1 = a then (kv.1, f kv.2) else kv)) =
        (List.lookup a l).map f
  | [] => rfl
  | (k, b) :: rest => by
      by_cases h : k = a
      · subst h
        have e1 : ((k, b) :: rest).map (fun kv => if kv.1 = k then (kv.1, f kv.2) else kv) =
            (k, f b) :: rest.map (fun kv => if kv.1 = k then (kv.1, f kv.2) else kv) := by
          simp
        rw [e1, lookup_cons_self, lookup_cons_self]
        rfl
      · have h2 : a ≠ k := fun he => h he.symm
        simp only [List.map_cons, if_neg h]
        rw [lookup_cons_ne a k _ _ h2, lookup_cons_ne a k b rest h2]
        exact lookup_map_update a f rest

theorem lookup_map_update_ne {β : Type} (a b : Address) (f : β → β) (hne : b ≠ a) :
    ∀ l : List (Address × β),
      List.lookup b (l.map (fun kv => if kv.1 = a then (kv.1, f kv.2) else kv)) =
        List.lookup b l
  | [] => rfl
  | (k, c) :: rest => by
      by_cases h : k = a
      · subst h
        have e1 : ((k, c) :: rest).map (fun kv => if kv.1 = k then (kv.1, f kv.2) else kv) =
            (k, f c) :: rest.map (fun kv => if kv.1 = k then (kv.1, f kv.2) else kv) := by
          simp
        rw [e1, lookup_cons_ne b k _ _ hne, lookup_cons_ne b k c rest hne]
        exact lookup_map_update_ne k b f hne rest
      · simp only [List.map_cons, if_neg h]
        by_cases h3 : b = k
        · subst h3
          rw [lookup_cons_self, lookup_cons_self]
        · rw [lookup_cons_ne b k _ _ h3, lookup_cons_ne b k c rest h3]
          exact lookup_map_update_ne a b f hne rest

/-- Claim C8: mounting an actor appends exactly one endpoint at the
end of the endpoint list of the mounted address, records one more
control receiver, and leaves the endpoint lists of every other address
unchanged. -/
theorem mountRegisters (s : System T) (address : Address) (ep : Endpoint)
    (rx : Rx (ActorEvent T)) :
    (s.mount address ep rx).senders.find address =
      some (((s.senders.find address).getD []) ++ [ep]) ∧
    (∀ b, b ≠ address → (s.mount address ep rx).senders.find b = s.senders.find b) ∧
    (s.mount address ep rx).receivers = s.receivers ++ [rx] ∧
    (s.mount address ep rx).receivers.length = s.receivers.length + 1 := by
  refine ⟨?_, ?_, rfl, by simp [System.mount]⟩
  · show List.lookup address _ = _
    cases hf : s.senders.find address with
    | some vec =>
        simp only [System.mount, hf, Option.isSome_some, if_true]
        rw [lookup_map_update address (fun v => v ++ [ep]) s.senders]
        unfold Registry.find at hf
        rw [hf]
        rfl
    | none =>
        simp only [System.mount, hf, Option.isSome_none, Bool.false_eq_true, if_false]
        rw [lookup_map_update address (fun v => v ++ [ep])
          ((address, ([] : List Endpoint)) :: s.senders)]
        rw [lookup_cons_self]
        rfl
  · intro b hb
    show List.lookup b _ = _
    cases hf : s.senders.find address with
    | some vec =>
        simp only [System.mount, hf, Option.isSome_some, if_true]
        exact lookup_map_update_ne address b (fun v => v ++ [ep]) hb s.senders
    | none =>
        simp only [System.mount, hf, Option.isSome_none, Bool.false_eq_true, if_false]
        rw [lookup_map_update_ne address b (fun v => v ++ [ep]) hb
          ((address, ([] : List Endpoint)) :: s.senders)]
        exact lookup_cons_ne b address _ _ hb

/-- Concrete instantiation of mountRegisters: mounting a second actor
under a on a system that already holds one endpoint under a and one
under b. -/
theorem mountRegisters_witness :
    (System.mount (T := Nat) ⟨[⟨[], false⟩], [("a", [⟨true⟩]), ("b", [⟨true⟩])]⟩
        "a" ⟨false⟩ ⟨[], false⟩).senders.find "a" =
      some ((((⟨[⟨[], false⟩], [("a", [⟨true⟩]), ("b", [⟨true⟩])]⟩ :
        System Nat).senders.find "a").getD []) ++ [⟨false⟩]) ∧
    (System.mount (T := Nat) ⟨[⟨[], false⟩], [("a", [⟨true⟩]), ("b", [⟨true⟩])]⟩
        "a" ⟨false⟩ ⟨[], false⟩).senders.find "b" =
      (⟨[⟨[], false⟩], [("a", [⟨true⟩]), ("b", [⟨true⟩])]⟩ :
        System Nat).senders.find "b" ∧
    (System.mount (T := Nat) ⟨[⟨[], false⟩], [("a", [⟨true⟩]), ("b", [⟨true⟩])]⟩
        "a" ⟨false⟩ ⟨[], false⟩).receivers.length =
      (⟨[⟨[], false⟩], [("a", [⟨true⟩]), ("b", [⟨true⟩])]⟩ :
        System Nat).receivers.length + 1 := by
  have h := mountRegisters (⟨[⟨[], false⟩], [("a", [⟨true⟩]), ("b", [⟨true⟩])]⟩ :
    System Nat) "a" ⟨false⟩ ⟨[], false⟩
  exact ⟨h.1, h.2.1 "b" (by decide), h.2.2.2⟩

/-! Lemmas for the termination behaviour of the multiplexer loop. -/

/-- Unfolding equation of selectPass on a cons cell. -/
theorem selectPass_cons (dl : Bool) (rx : Rx T) (rest : List (Rx T)) :
    selectPass dl (rx :: rest) =
      match rx.tryRecv with
      | .ok value rx2 =>
          if dl then (rx2 :: (selectPass dl rest).1, value :: (selectPass dl rest).2)
          else selectPass dl rest
      | .empty => (rx :: (selectPass dl rest).1, (selectPass dl rest).2)
      | .disconnected => selectPass dl rest := rfl

/-- When every input channel is closed, a pass keeps only inputs with
a shorter pending queue: the kept pending total plus the kept count is
bounded by the original pending total. -/
theorem selectPass_sum (receivers : List (Rx T))
    (h : ∀ rx ∈ receivers, rx.closed = true) :
    (((selectPass true receivers).1.map (fun rx => rx.pending.length)).sum +
        (selectPass true receivers).1.length ≤
      (receivers.map (fun rx => rx.pending.length)).sum) ∧
    (∀ rx ∈ (selectPass true receivers).1, rx.closed = true) := by
  induction receivers with
  | nil => exact ⟨by simp [selectPass], by intro rx hrx; simp [selectPass] at hrx⟩
  | cons r rest ih =>
      have hr : r.closed = true := h r (List.mem_cons_self r rest)
      have hrest : ∀ x ∈ rest, x.closed = true :=
        fun x hx => h x (List.mem_cons_of_mem r hx)
      obtain ⟨hsum, hclosed⟩ := ih hrest
      obtain ⟨pend, c⟩ := r
      have hc : c = true := hr
      subst hc
      cases pend with
      | nil =>
          have ht : (⟨[], true⟩ : Rx T).tryRecv = PollResult.disconnected := rfl
          rw [selectPass_cons, ht]
          constructor
          · simp only [List.map_cons, List.sum_cons]
            omega
          · exact hclosed
      | cons v p =>
          have ht : (⟨v :: p, true⟩ : Rx T).tryRecv =
              PollResult.ok v ⟨p, true⟩ := rfl
          rw [selectPass_cons, ht]
          constructor
          · simp only [if_true, List.map_cons, List.sum_cons, List.length_cons]
            omega
          · intro rx hrx
            simp only [if_true] at hrx
            rcases List.mem_cons.mp hrx with he | he
            · subst he; rfl
            · exact hclosed rx he

/-- An input whose sender is still held survives every pass (possibly
advanced), so the live set never empties. -/
theorem selectPass_keeps_open (receivers : List (Rx T)) (rx : Rx T)
    (hmem : rx ∈ receivers) (hopen : rx.closed = false) :
    ∃ rx2 ∈ (selectPass true receivers).1, rx2.closed = false := by
  induction receivers with
  | nil => simp at hmem
  | cons r rest ih =>
      rcases List.mem_cons.mp hmem with he | he
      · subst he
        obtain ⟨pend, c⟩ := rx
        have hc : c = false := hopen
        subst hc
        cases pend with
        | nil =>
            have ht : (⟨[], false⟩ : Rx T).tryRecv = PollResult.empty := rfl
            rw [selectPass_cons, ht]
            exact ⟨⟨[], false⟩, List.mem_cons_self _ _, rfl⟩
        | cons v p =>
            have ht : (⟨v :: p, false⟩ : Rx T).tryRecv =
                PollResult.ok v ⟨p, false⟩ := rfl
            rw [selectPass_cons, ht]
            exact ⟨⟨p, false⟩, by simp, rfl⟩
      · obtain ⟨rx2, hrx2, hopen2⟩ := ih he
        cases ht : r.tryRecv with
        | ok v r2 =>
            rw [selectPass_cons, ht]
            exact ⟨rx2, by simp [List.mem_cons_of_mem, hrx2], hopen2⟩
        | empty =>
            rw [selectPass_cons, ht]
            exact ⟨rx2, List.mem_cons_of_mem _ hrx2, hopen2⟩
        | disconnected =>
            rw [selectPass_cons, ht]
            exact ⟨rx2, hrx2, hopen2⟩

/-- With every input closed, the loop drains all pending values and
returns within pending-total + 1 passes. -/
theorem selectLoop_some_of_closed :
    ∀ (bound : Nat) (receivers : List (Rx T)),
      (receivers.map (fun rx => rx.pending.length)).sum ≤ bound →
      (∀ rx ∈ receivers, rx.closed = true) →
      (selectLoop true (bound + 1) receivers).isSome := by
  intro bound
  induction bound with
  | zero =>
      intro receivers hsum hclosed
      obtain ⟨hs, _⟩ := selectPass_sum receivers hclosed
      have hnil : (selectPass true receivers).1 = [] := by
        have : (selectPass true receivers).1.length = 0 := by omega
        exact List.length_eq_zero.mp this
      simp [selectLoop, hnil]
  | succ n ih =>
      intro receivers hsum hclosed
      obtain ⟨hs, hkc⟩ := selectPass_sum receivers hclosed
      cases hk : (selectPass true receivers).1 with
      | nil => simp [selectLoop, hk]
      | cons k ks =>
          have hlen : 0 < (selectPass true receivers).1.length := by
            rw [hk]; simp
          have hs2 : (((selectPass true receivers).1.map
              (fun rx => rx.pending.length)).sum) ≤ n := by omega
          have hnext := ih (selectPass true receivers).1 hs2 hkc
          rw [show (selectLoop true (n + 1 + 1) receivers) =
            (if (selectPass true receivers).1.isEmpty then some (selectPass true receivers).2
             else match selectLoop true (n + 1) (selectPass true receivers).1 with
               | none => none
               | some out2 => some ((selectPass true receivers).2 ++ out2)) from rfl]
          rw [hk] at hnext ⊢
          simp only [List.isEmpty_cons, if_false, Bool.false_eq_true]
          cases h2 : selectLoop true (n + 1) (k :: ks) with
          | none => rw [h2] at hnext; simp at hnext
          | some out2 => simp

/-- With some input still open, the loop never returns, whatever the
fuel. -/
theorem selectLoop_none_of_open (receivers : List (Rx T)) (rx : Rx T)
    (hmem : rx ∈ receivers) (hopen : rx.closed = false) :
    ∀ fuel, selectLoop true fuel receivers = none := by
  intro fuel
  induction fuel generalizing receivers rx with
  | zero => rfl
  | succ n ih =>
      obtain ⟨rx2, hrx2, hopen2⟩ := selectPass_keeps_open receivers rx hmem hopen
      cases hk : (selectPass true receivers).1 with
      | nil => rw [hk] at hrx2; simp at hrx2
      | cons k ks =>
          have hrec := ih (selectPass true receivers).1 rx2 hrx2 hopen2
          rw [show (selectLoop true (n + 1) receivers) =
            (if (selectPass true receivers).1.isEmpty then some (selectPass true receivers).2
             else match selectLoop true n (selectPass true receivers).1 with
               | none => none
               | some out2 => some ((selectPass true receivers).2 ++ out2)) from rfl]
          rw [hk] at hrec ⊢
          simp only [List.isEmpty_cons, if_false, Bool.false_eq_true]
          rw [hrec]

/-- Claim C9: the run loop of the router returns exactly when every
mounted actor has finished.  In the model an actor control channel has
closed = true precisely when its actor thread has emitted Stopped and
returned; the multiplexed stream then closes after draining, and run
returns.  If some actor never returns, its control channel stays open,
the live set never empties, and run never returns. -/
theorem runReturnsIffActorsFinish (s : System T) :
    ((∀ rx ∈ s.receivers, rx.closed = true) →
      ∃ fuel, (selectLoop true fuel s.receivers).isSome) ∧
    ((∃ rx ∈ s.receivers, rx.closed = false) →
      ∀ fuel, selectLoop true fuel s.receivers = none) := by
  constructor
  · intro h
    exact ⟨(s.receivers.map (fun rx => rx.pending.length)).sum + 1,
      selectLoop_some_of_closed _ s.receivers (Nat.le_refl _) h⟩
  · intro h fuel
    obtain ⟨rx, hmem, hopen⟩ := h
    exact selectLoop_none_of_open s.receivers rx hmem hopen fuel

/-- Concrete instantiation of runReturnsIffActorsFinish: a system
whose single actor has finished (closed control channel with one
pending event) terminates; a system with a still-running actor does
not, shown at fuel 5. -/
theorem runReturnsIffActorsFinish_witness :
    (∃ fuel, (selectLoop true fuel
      ([⟨[ActorEvent.Stopped "A"], true⟩] : List (Rx (ActorEvent Nat)))).isSome) ∧
    selectLoop true 5 ([⟨[], false⟩] : List (Rx (ActorEvent Nat))) = none := by
  constructor
  · exact (runReturnsIffActorsFinish
      (⟨[⟨[ActorEvent.Stopped "A"], true⟩], []⟩ : System Nat)).1
      (by intro rx hrx; rcases List.mem_cons.mp hrx with he | he
          · subst he; rfl
          · simp at he)
  · exact (runReturnsIffActorsFinish (⟨[⟨[], false⟩], []⟩ : System Nat)).2
      ⟨⟨[], false⟩, List.mem_cons_self _ _, rfl⟩ 5

/-! Lemmas for the in-bounds safety of Send dispatch. -/

/-- System::mount preserves non-emptiness of every endpoint vector in
the registry. -/
theorem mount_nonempty (s : System T) (address : Address) (ep : Endpoint)
    (rx : Rx (ActorEvent T)) (h : RegistryNonempty s.senders) :
    RegistryNonempty (s.mount address ep rx).senders := by
  intro kv hkv
  unfold System.mount at hkv
  obtain ⟨kv0, hkv0, rfl⟩ := List.mem_map.mp hkv
  by_cases hc : kv0.1 = address
  · simp only [if_pos hc]
    simp
  · simp only [if_neg hc]
    have hkv0mem : kv0 ∈ s.senders := by
      by_cases hs : (Registry.find s.senders address).isSome
      · rw [if_pos hs] at hkv0
        exact hkv0
      · rw [if_neg hs] at hkv0
        rcases List.mem_cons.mp hkv0 with he | he
        · exact absurd (by rw [he]) hc
        · exact he
    exact h kv0 hkv0mem

/-- Folding mounts from any registry with non-empty vectors keeps every
vector non-empty. -/
theorem foldl_mount_nonempty :
    ∀ (mounts : List (Address × Endpoint × Rx (ActorEvent T))) (s : System T),
      RegistryNonempty s.senders →
      RegistryNonempty
        ((mounts.foldl (fun s m => s.mount m.1 m.2.1 m.2.2) s)).senders
  | [], _, h => h
  | m :: rest, s, h =>
      foldl_mount_nonempty rest _ (mount_nonempty s m.1 m.2.1 m.2.2 h)

/-- Every registry produced by a sequence of mounts on a new system
has only non-empty endpoint vectors. -/
theorem mountAll_nonempty (mounts : List (Address × Endpoint × Rx (ActorEvent T))) :
    RegistryNonempty (mountAll mounts).senders :=
  foldl_mount_nonempty mounts System.new (by intro kv hkv; simp [System.new] at hkv)

/-- RoundRobin::new on a registry with non-empty vectors establishes
the counter correspondence with every current index in bounds. -/
theorem new_matches (senders : Registry) (h : RegistryNonempty senders) :
    RRMatches senders (RoundRobin.new senders) := by
  intro a vec hfind
  refine ⟨vec.length - 1, ?_, ?_⟩
  · unfold RoundRobin.new
    rw [lookup_map_val (fun v => (v.length, v.length - 1)) a senders]
    unfold Registry.find at hfind
    rw [hfind]
    rfl
  · have hmem := lookup_mem a vec senders hfind
    have hne := h (a, vec) hmem
    have hlen : 0 < vec.length := List.length_pos.mpr hne
    omega

/-- RoundRobin::next preserves the counter correspondence. -/
theorem next_matches (senders : Registry) (rr : RoundRobin) (a : Address)
    (h : RRMatches senders rr) : RRMatches senders (rr.next a).2 := by
  intro b vec hfind
  obtain ⟨c, hlb, hcb⟩ := h b vec hfind
  by_cases hba : b = a
  · subst hba
    have hk := next_known rr b vec.length c hlb hcb
    exact ⟨(c + 1) % vec.length, hk.2, Nat.mod_lt _ (by omega)⟩
  · rw [next_lookup_ne rr a b hba]
    exact ⟨c, hlb, hcb⟩

/-- Under the counter correspondence every dispatch succeeds (the
endpoint indexing of the Send arm stays in bounds, so the source never
panics), and the correspondence is preserved. -/
theorem dispatch_some (senders : Registry) (rr : RoundRobin)
    (h : RRMatches senders rr) (ev : ActorEvent T) :
    ∃ evs dels rr2, dispatch senders rr ev = some (evs, dels, rr2) ∧
      RRMatches senders rr2 := by
  cases ev with
  | Started a => exact ⟨_, _, rr, rfl, h⟩
  | Stopped a => exact ⟨_, _, rr, rfl, h⟩
  | Publish frm dst value =>
      cases hfind : senders.find dst with
      | none => exact ⟨[SystemEvent.Forward frm dst 0,
          SystemEvent.Error dst "does not exist"], [], rr,
          by simp [dispatch, hfind], h⟩
      | some vec => exact ⟨SystemEvent.Forward frm dst 0 ::
          (publishLoop dst value vec 0).1,
          (publishLoop dst value vec 0).2.map (fun p => (dst, p.1, p.2)), rr,
          by simp [dispatch, hfind], h⟩
  | Send frm dst value =>
      cases hfind : senders.find dst with
      | none => exact ⟨[SystemEvent.Forward frm dst 0,
          SystemEvent.Error dst "does not exist"], [], rr,
          by simp [dispatch, hfind], h⟩
      | some vec =>
          obtain ⟨c, hl, hc⟩ := h dst vec hfind
          have hidx : (rr.next dst).1 < vec.length := by
            rw [(next_known rr dst vec.length c hl hc).1]
            exact Nat.mod_lt _ (by omega)
          obtain ⟨sender, hget⟩ : ∃ s, vec[(rr.next dst).1]? = some s := by
            rw [List.getElem?_eq_getElem hidx]
            exact ⟨_, rfl⟩
          have hpres := next_matches senders rr dst h
          cases hok : sender.sendOk with
          | true => exact ⟨[SystemEvent.Forward frm dst 0],
              [(dst, (rr.next dst).1, value)], (rr.next dst).2,
              by simp [dispatch, hfind, hget, hok], hpres⟩
          | false => exact ⟨[SystemEvent.Forward frm dst 0,
              SystemEvent.Error dst "send error"], [], (rr.next dst).2,
              by simp [dispatch, hfind, hget, hok], hpres⟩

/-- Under the counter correspondence the whole event loop succeeds. -/
theorem runLoop_some (senders : Registry) :
    ∀ (events : List (ActorEvent T)) (rr : RoundRobin),
      RRMatches senders rr → (runLoop senders rr events).isSome
  | [], rr, _ => by simp [runLoop]
  | e :: rest, rr, h => by
      obtain ⟨evs, dels, rr2, hd, h2⟩ := dispatch_some senders rr h e
      have hr := runLoop_some senders rest rr2 h2
      rw [runLoop, hd]
      rcases h3 : runLoop senders rr2 rest with _ | ⟨evs2, dels2⟩
      · rw [h3] at hr
        simp at hr
      · simp [h3]

/-- Claim C10: after any sequence of mounts every registry entry has a
non-empty endpoint vector, the round-robin state built by
RoundRobin::new is in correspondence with the registry (every current
index strictly below its endpoint count), RoundRobin::next preserves
that correspondence, and consequently the endpoint indexing of the
Send dispatch arm is always in bounds: the run loop never panics on
any event sequence. -/
theorem mountedDispatchSafe (mounts : List (Address × Endpoint × Rx (ActorEvent T)))
    (events : List (ActorEvent T)) :
    RegistryNonempty (mountAll mounts).senders ∧
    RRMatches (mountAll mounts).senders
      (RoundRobin.new (mountAll mounts).senders) ∧
    (∀ (rr : RoundRobin) (a : Address),
      RRMatches (mountAll mounts).senders rr →
      RRMatches (mountAll mounts).senders (rr.next a).2) ∧
    (runLoop (mountAll mounts).senders
      (RoundRobin.new (mountAll mounts).senders) events).isSome := by
  have h1 := mountAll_nonempty mounts
  have h2 := new_matches (mountAll mounts).senders h1
  exact ⟨h1, h2, fun rr a h => next_matches _ rr a h,
    runLoop_some _ events _ h2⟩

/-- Concrete instantiation of mountedDispatchSafe: two actors under a,
one under b, a mixed event sequence including sends to a pooled
address and to an absent address. -/
theorem mountedDispatchSafe_witness :
    RegistryNonempty (mountAll (T := Nat)
      [("a", ⟨true⟩, ⟨[], true⟩), ("a", ⟨true⟩, ⟨[], true⟩),
       ("b", ⟨false⟩, ⟨[], true⟩)]).senders ∧
    RRMatches (mountAll (T := Nat)
      [("a", ⟨true⟩, ⟨[], true⟩), ("a", ⟨true⟩, ⟨[], true⟩),
       ("b", ⟨false⟩, ⟨[], true⟩)]).senders
      (RoundRobin.new (mountAll (T := Nat)
        [("a", ⟨true⟩, ⟨[], true⟩), ("a", ⟨true⟩, ⟨[], true⟩),
         ("b", ⟨false⟩, ⟨[], true⟩)]).senders) ∧
    (runLoop (mountAll (T := Nat)
        [("a", ⟨true⟩, ⟨[], true⟩), ("a", ⟨true⟩, ⟨[], true⟩),
         ("b", ⟨false⟩, ⟨[], true⟩)]).senders
      (RoundRobin.new (mountAll (T := Nat)
        [("a", ⟨true⟩, ⟨[], true⟩), ("a", ⟨true⟩, ⟨[], true⟩),
         ("b", ⟨false⟩, ⟨[], true⟩)]).senders)
      [ActorEvent.Send "x" "a" 1, ActorEvent.Send "x" "a" 2,
       ActorEvent.Send "x" "a" 3, ActorEvent.Publish "x" "b" 4,
       ActorEvent.Send "x" "zzz" 5]).isSome := by
  have h := mountedDispatchSafe (T := Nat)
    [("a", ⟨true⟩, ⟨[], true⟩), ("a", ⟨true⟩, ⟨[], true⟩),
     ("b", ⟨false⟩, ⟨[], true⟩)]
    [ActorEvent.Send "x" "a" 1, ActorEvent.Send "x" "a" 2,
     ActorEvent.Send "x" "a" 3, ActorEvent.Publish "x" "b" 4,
     ActorEvent.Send "x" "zzz" 5]
  exact ⟨h.1, h.2.1, h.2.2.2⟩

end Crimson
